import Mathlib

/-!
# Verification of the mcp-loader hot-reload capability registry

Shallow embedding of `src/unnamed/part_001` (the mcp-loader entry point).
The embedding models:

* JavaScript runtime values exported by a tool file (`JSData`, `FieldValue`,
  `ExportValue`) and the structural guard `isToolDefinition`;
* the process-wide mutable state (`SysState`): the `registeredTools` map
  (file base name to the set of tool names it registered), the MCP server's
  internal `_registeredTools` table (`serverTools`), the diagnostic log, the
  host runtime's ES-module cache, and a clock supplying `Date.now()` values;
* the operations `unregisterFileTools`, `registerTool`, `loadToolFile`,
  `loadAllTools`, the watcher callback (`watchEvent`) and the debounce
  drain (`drainBatch`).

Modelling conventions:
* JavaScript `Map` / plain-object tables are association lists; since JS
  object keys and `Map` keys are unique, deletion removes every binding with
  the given key and insertion overwrites the first binding in place.
* Fallible code (a throwing `execute`, a failing dynamic `import`) is
  modelled with `Except` / a `LoadOutcome` sum, never with real exceptions.
* `Date.now()` is modelled by a `now : Nat` counter in the state that is
  incremented at every dynamic import.  This makes consecutive imports
  observe distinct clock values; the millisecond resolution of the real
  clock is below the granularity of the model.
* The host runtime's ES-module cache is keyed by the exact import URL.
  `pathToFileURL` percent-encodes `?` in file names, so the URL string
  `fileUrl + "?t=" + t` determines and is determined by the pair
  (path, optional token); the cache is therefore keyed by that pair
  (`ImportReq`), and the URL string itself is `renderImportReq`.
-/

/-- Function-free JavaScript values: the data that flows through tool
arguments, execution results, and non-callable object fields. -/
inductive JSData where
  | null
  | undef
  | str (s : String)
  | num (n : Int)
  | bool (b : Bool)
  | obj (fields : List (String × JSData))
deriving Inhabited

/-- The semantics of a JavaScript function value used as a tool `execute`
behavior: it receives the (parsed) arguments and the per-call context and
either returns a result or throws/rejects with an error message. -/
abbrev ExecFn : Type := JSData → JSData → Except String JSData

/-- A field of an exported object: either plain data or a callable. -/
inductive FieldValue where
  | data (d : JSData)
  | func (f : ExecFn)

/-- A value exported from a tool module: a primitive (whose `typeof` is not
`"object"`, or `null`), a bare function, or a (non-null) object. -/
inductive ExportValue where
  | prim (d : JSData)
  | efunc (f : ExecFn)
  | obj (fields : List (String × FieldValue))

/-- The exports of one evaluated module: the list of
`(export name, value)` entries, with `"default"` as the key of the default
export.  JavaScript module export names are unique. -/
abbrev JSModule : Type := List (String × ExportValue)

/-- First-match association-list lookup (JS `Map.get` / property access;
keys are unique in every state the program reaches). -/
def alookup {α β : Type} [DecidableEq α] : List (α × β) → α → Option β
  | [], _ => none
  | (k, v) :: rest, key => if k = key then some v else alookup rest key

/-- Association-list insert-or-overwrite (JS `Map.set` / property
assignment): overwrites the first binding in place, else appends. -/
def aset {α β : Type} [DecidableEq α] : List (α × β) → α → β → List (α × β)
  | [], k, v => [(k, v)]
  | (k', v') :: rest, k, v =>
      if k' = k then (k, v) :: rest else (k', v') :: aset rest k v

/-- Association-list delete (JS `Map.delete` / `delete obj[k]`): removes
every binding with the key (keys are unique, so this is the one binding). -/
def adel {α β : Type} [DecidableEq α] : List (α × β) → α → List (α × β)
  | [], _ => []
  | (k', v') :: rest, k =>
      if k' = k then adel rest k else (k', v') :: adel rest k

/-- JS `Set.add` for a set represented as its insertion-ordered list of
elements: appends unless already present. -/
def setAdd (s : List String) (x : String) : List String :=
  if x ∈ s then s else s ++ [x]

theorem alookup_aset_self {α β : Type} [DecidableEq α] (l : List (α × β)) (k : α) (v : β) :
    alookup (aset l k v) k = some v := by
  induction l with
  | nil => simp [aset, alookup]
  | cons hd tl ih =>
      obtain ⟨k', v'⟩ := hd
      by_cases h : k' = k <;> simp [aset, alookup, h, ih]

theorem alookup_aset_ne {α β : Type} [DecidableEq α] (l : List (α × β)) (k k' : α) (v : β)
    (h : k ≠ k') : alookup (aset l k v) k' = alookup l k' := by
  induction l with
  | nil => simp [aset, alookup, h]
  | cons hd tl ih =>
      obtain ⟨k₀, v₀⟩ := hd
      by_cases h₀ : k₀ = k
      · subst h₀; simp [aset, alookup, h]
      · simp only [aset, if_neg h₀]
        by_cases h₁ : k₀ = k' <;> simp [alookup, h₁, ih]

theorem alookup_adel_self {α β : Type} [DecidableEq α] (l : List (α × β)) (k : α) :
    alookup (adel l k) k = none := by
  induction l with
  | nil => simp [adel, alookup]
  | cons hd tl ih =>
      obtain ⟨k', v'⟩ := hd
      by_cases h : k' = k <;> simp [adel, alookup, h, ih]

theorem alookup_adel_ne {α β : Type} [DecidableEq α] (l : List (α × β)) (k k' : α)
    (h : k ≠ k') : alookup (adel l k) k' = alookup l k' := by
  induction l with
  | nil => simp [adel, alookup]
  | cons hd tl ih =>
      obtain ⟨k₀, v₀⟩ := hd
      by_cases h₀ : k₀ = k
      · subst h₀
        simp only [adel, alookup, eq_self_iff_true, if_true, ih]
        rw [if_neg h]
      · simp only [adel, if_neg h₀, alookup]
        by_cases h₁ : k₀ = k'
        · simp [h₁]
        · simp [h₁, ih]

theorem mem_setAdd (s : List String) (x y : String) :
    y ∈ setAdd s x ↔ y ∈ s ∨ y = x := by
  by_cases h : x ∈ s
  · simp only [setAdd, if_pos h]
    constructor
    · exact Or.inl
    · rintro (hy | rfl) <;> [exact hy; exact h]
  · simp [setAdd, if_neg h]

/-! ## Tool files and the structural guard -/

/-- JavaScript `s.endsWith(suffix)`, modelled on the character data (the
built-in `String.endsWith` is byte-position based and does not reduce in
the kernel). -/
def jsEndsWith (s suffix : String) : Bool :=
  suffix.data.isSuffixOf s.data

/-- JavaScript `s.slice(0, s.length - n)`: drop the last `n` characters. -/
def jsDropRight (s : String) (n : Nat) : String :=
  String.mk (s.data.take (s.data.length - n))

/-- `file.endsWith(".ts") || file.endsWith(".js")`: the eligibility filter
used both by `loadToolFile` and by the watcher callback. -/
def isToolSourceFile (file : String) : Bool :=
  jsEndsWith file ".ts" || jsEndsWith file ".js"

/-- `file.replace(/\.(ts|js)$/, "")`: the file's base identity (both
recognized extensions are three characters long). -/
def stripExt (file : String) : String :=
  if isToolSourceFile file then jsDropRight file 3 else file

/-- The type guard `isToolDefinition`: `typeof value === "object"`,
`value !== null`, `"description" in value`, `"execute" in value`,
`typeof value.description === "string"`,
`typeof value.execute === "function"`.  A primitive or a bare function
fails the `typeof value === "object"` test; `null` fails `!== null`;
everything else is an object and is checked field-wise. -/
def isToolDefinition : ExportValue → Bool
  | .obj fields =>
      (match alookup fields "description" with
       | some (.data (.str _)) => true
       | _ => false)
      &&
      (match alookup fields "execute" with
       | some (.func _) => true
       | _ => false)
  | _ => false

/-- Property access `tool.description` (guarded code only reads it when the
guard established it is a string). -/
def toolDescription (tool : List (String × FieldValue)) : String :=
  match alookup tool "description" with
  | some (.data (.str s)) => s
  | _ => ""

/-- Property access `tool.args`.  The TypeScript type of `args` is
`Record<string, z.ZodTypeAny> | undefined`; a present field is an object
whose values are (opaque) schema objects. -/
def toolArgs (tool : List (String × FieldValue)) : Option (List (String × JSData)) :=
  match alookup tool "args" with
  | some (.data (.obj kvs)) => some kvs
  | _ => none

/-- Property access `tool.execute` (the guard established it is callable). -/
def toolExecute (tool : List (String × FieldValue)) : ExecFn :=
  match alookup tool "execute" with
  | some (.func f) => f
  | _ => fun _ _ => Except.ok JSData.undef

/-- The fields of an exported object value (the guard established the
export is an object before these are read). -/
def exportFields : ExportValue → List (String × FieldValue)
  | .obj fields => fields
  | _ => []

/-! ## The adapter: response envelope and wrapped handler -/

/-- One `{ type: "text", text: ... }` item of a tool response. -/
structure ContentItem where
  type : String
  text : String
deriving DecidableEq

/-- The response envelope `{ content: [...] }` the adapter returns. -/
structure ToolResponse where
  content : List ContentItem
deriving DecidableEq

/-- Flat rendering of `JSON.stringify(result, null, 2)`.  The indentation
and whitespace of the real pretty-printer are abstracted (no claim depends
on them); `undefined` (where the real call yields the value `undefined`,
not a string) is rendered as a placeholder for totality. -/
def jsonStringify : JSData → String
  | .null => "null"
  | .undef => "undefined"
  | .str s => "\"" ++ s ++ "\""
  | .num n => toString n
  | .bool b => if b then "true" else "false"
  | .obj kvs =>
      "\x7b" ++
        String.intercalate ","
          (kvs.attach.map (fun kv => "\"" ++ kv.1.1 ++ "\":" ++ jsonStringify kv.1.2)) ++
        "\x7d"
decreasing_by
  obtain ⟨⟨k, v⟩, hmem⟩ := kv
  have h1 := List.sizeOf_lt_of_mem hmem
  simp_all
  omega

/-- `typeof result === "string" ? result : JSON.stringify(result, null, 2)`. -/
def renderResultText (result : JSData) : String :=
  match result with
  | .str s => s
  | r => jsonStringify r

/-- The envelope built by the adapter callback around the execute result. -/
def mkToolResponse (result : JSData) : ToolResponse :=
  ⟨[⟨"text", renderResultText result⟩]⟩

/-- The two callback shapes passed to `server.tool`: with a schema the
callback receives `(args, extra)`; without, only `(extra)`. -/
inductive ToolHandler where
  | withArgs (h : JSData → JSData → Except String ToolResponse)
  | noArgs (h : JSData → Except String ToolResponse)

/-- Invoking a registered callback: the sink supplies parsed arguments and
the per-call context; a no-args callback never sees arguments. -/
def handlerRun : ToolHandler → JSData → JSData → Except String ToolResponse
  | .withArgs h, args, extra => h args extra
  | .noArgs h, _, extra => h extra

/-- `tool.args && Object.keys(tool.args).length > 0 ? tool.args : undefined`. -/
def computedSchema (tool : List (String × FieldValue)) : Option (List (String × JSData)) :=
  match toolArgs tool with
  | some kvs => if kvs.length > 0 then some kvs else none
  | none => none

/-- The adapter callback handed to `server.tool`.  With a schema:
`async (args, extra) => { const result = await tool.execute(args, extra);
return { content: [...] } }` — with no schema the callback only receives
`extra` and calls `tool.execute({}, extra)`.  Note there is no try/catch:
a failure of `execute` is not caught here. -/
def mkHandler (tool : List (String × FieldValue)) :
    Option (List (String × JSData)) → ToolHandler
  | some _ =>
      .withArgs (fun args extra => (toolExecute tool args extra).map mkToolResponse)
  | none =>
      .noArgs (fun extra => (toolExecute tool (JSData.obj []) extra).map mkToolResponse)

/-- What one `server.tool(name, description, schema?, cb)` call installs in
the server's internal `_registeredTools` table under `name`. -/
structure RegisteredEntry where
  description : String
  schema : Option (List (String × JSData))
  handler : ToolHandler

/-- The entry `registerTool` installs for one tool definition. -/
def mkRegisteredEntry (tool : List (String × FieldValue)) : RegisteredEntry :=
  { description := toolDescription tool
    schema := computedSchema tool
    handler := mkHandler tool (computedSchema tool) }

/-! ## Module loading -/

/-- Outcome of `await stat(filePath)` followed by `await import(importUrl)`
for a file: the file is gone (`ENOENT`), the module throws while loading
(syntax error or a throw during initialization), or it evaluates to a
module with exports. -/
inductive LoadOutcome where
  | notFound
  | loadFailure (msg : String)
  | success (m : JSModule)

/-- A snapshot of the tool directory: what loading each file name would
currently produce. -/
abbrev FS : Type := String → LoadOutcome

/-- A dynamic-import request: the resolved file path plus the optional
cache-buster token (`?t=...`).  `pathToFileURL` percent-encodes `?` in
paths, so this pair and the URL string determine each other. -/
structure ImportReq where
  path : String
  token : Option Nat
deriving DecidableEq

/-- `join(toolDir, file)`. -/
def joinPath (dir file : String) : String := dir ++ "/" ++ file

/-- `pathToFileURL(filePath).href` (percent-encoding abstracted). -/
def fileUrlOf (path : String) : String := "file://" ++ path

/-- `hotReload ? fileUrl + "?t=" + Date.now() : fileUrl` as a request. -/
def mkImportReq (hot : Bool) (path : String) (now : Nat) : ImportReq :=
  if hot then ⟨path, some now⟩ else ⟨path, none⟩

/-- The URL string of an import request. -/
def renderImportReq (r : ImportReq) : String :=
  match r.token with
  | some t => fileUrlOf r.path ++ "?t=" ++ toString t
  | none => fileUrlOf r.path

/-- The import URL computed at line 142 of the source:
`hotReload ? fileUrl + "?t=" + Date.now() : fileUrl`. -/
def importUrl (hot : Bool) (path : String) (now : Nat) : String :=
  renderImportReq (mkImportReq hot path now)

/-- The host runtime's ES-module cache semantics for `await import(url)`:
a cached URL yields the previously evaluated module (however stale); a
fresh URL evaluates the file's current content and, on success, caches it
under the URL. -/
def resolveImport (cache : List (ImportReq × JSModule)) (req : ImportReq)
    (current : LoadOutcome) : LoadOutcome × List (ImportReq × JSModule) :=
  match alookup cache req with
  | some m => (.success m, cache)
  | none =>
      match current with
      | .success m => (.success m, aset cache req m)
      | o => (o, cache)

/-! ## Process state and the registry operations -/

/-- The process-wide mutable state:
`registeredTools : Map<string, Set<string>>` (base name to tool names),
the server's internal `_registeredTools` table, the `console.error`
diagnostic log, the runtime's module cache and the `Date.now()` clock. -/
structure SysState where
  registeredTools : List (String × List String)
  serverTools : List (String × RegisteredEntry)
  log : List String
  cache : List (ImportReq × JSModule)
  now : Nat

/-- State at process start. -/
def initState : SysState :=
  { registeredTools := [], serverTools := [], log := [], cache := [], now := 0 }

/-- The set of tool names currently recorded as owned by a base name. -/
def ownedNames (st : SysState) (baseName : String) : List String :=
  (alookup st.registeredTools baseName).getD []

/-- `unregisterFileTools(file)`: looks up the tracked names for the file's
base identity; if present, deletes each of those names from the server's
`_registeredTools` table (keyed by name alone) and drops the tracking
entry.  No-op when nothing is tracked.  The source's defensive
`if ((server as any)._registeredTools)` guard is always taken: the model
represents that internal table directly as `serverTools`. -/
def unregisterFileTools (st : SysState) (file : String) : SysState :=
  let baseName := stripExt file
  match alookup st.registeredTools baseName with
  | none => st
  | some toolNames =>
      { st with
        log := st.log ++
          ["Unregistering tools from " ++ file ++ ": " ++
            String.intercalate ", " toolNames]
        serverTools := toolNames.foldl (fun m n => adel m n) st.serverTools
        registeredTools := adel st.registeredTools baseName }

/-- `registerTool(name, tool, baseName)`: tracks the name under the base
name, then calls `server.tool(...)`.  The sink call is modelled per the
spec's interface boundary (§4.2, §6): it installs the adapter-wrapped
entry under `name`, overwriting any pre-existing entry with that name. -/
def registerTool (name : String) (tool : List (String × FieldValue))
    (baseName : String) (st : SysState) : SysState :=
  { st with
    registeredTools :=
      aset st.registeredTools baseName (setAdd (ownedNames st baseName) name)
    log := st.log ++ ["Registering tool: " ++ name]
    serverTools := aset st.serverTools name (mkRegisteredEntry tool) }

/-- The export-registration section of `loadToolFile` (lines 145–155):
register an accepted default export under the base name, then every
accepted named export under `baseName + "_" + key`.  The source's
truthiness test `module.default && ...` is subsumed by the guard: every
falsy JavaScript value fails `isToolDefinition`, and an absent default
export is the `none` branch of the lookup. -/
def registerModuleExports (baseName : String) (m : JSModule) (st : SysState) :
    SysState :=
  let st1 :=
    match alookup m "default" with
    | some v =>
        if isToolDefinition v then registerTool baseName (exportFields v) baseName st
        else st
    | none => st
  m.foldl
    (fun s kv =>
      if kv.1 != "default" && isToolDefinition kv.2 then
        registerTool (baseName ++ "_" ++ kv.1) (exportFields kv.2) baseName s
      else s)
    st1

/-- `loadToolFile(file)`: skip non-tool files; unregister whatever the file
previously owned; stat the file (`ENOENT` means deleted); import a fresh
copy via the cache-busted URL; on success register the accepted exports;
an import failure is caught and logged, leaving the file with nothing
registered. -/
def loadToolFile (fs : FS) (hot : Bool) (dir : String) (st : SysState)
    (file : String) : SysState :=
  if !(isToolSourceFile file) then st
  else
    let baseName := stripExt file
    let st1 := unregisterFileTools st file
    match fs file with
    | .notFound => { st1 with log := st1.log ++ ["File deleted: " ++ file] }
    | current =>
        let req := mkImportReq hot (joinPath dir file) st1.now
        let st2 := { st1 with now := st1.now + 1 }
        let res := resolveImport st2.cache req current
        let st3 := { st2 with cache := res.2 }
        match res.1 with
        | .success m => registerModuleExports baseName m st3
        | .loadFailure msg =>
            { st3 with log := st3.log ++ ["Failed to load " ++ file ++ ": " ++ msg] }
        | .notFound => { st3 with log := st3.log ++ ["File deleted: " ++ file] }

/-- `loadAllTools()`: the initial scan loads every directory entry in
order. -/
def loadAllTools (fs : FS) (hot : Bool) (dir : String) (files : List String)
    (st : SysState) : SysState :=
  files.foldl (loadToolFile fs hot dir) st

/-! ## The change scheduler -/

/-- The watcher callback (lines 221–228): a raw event carries an optional
filename; an eligible filename is added to `pendingReloads` (a `Set`). -/
def watchEvent (pending : List String) (filename : Option String) : List String :=
  match filename with
  | some f => if isToolSourceFile f then setAdd pending f else pending
  | none => pending

/-- Observable steps of a drained debounce batch. -/
inductive BatchAction where
  | reload (file : String)
  | notify
deriving DecidableEq

/-- Result of one debounce-timer firing. -/
structure DrainResult where
  state : SysState
  trace : List BatchAction

/-- The debounce timer body (lines 193–218): drain `pendingReloads`, run
`loadToolFile` sequentially for each drained filename, then send exactly
one `tools/list_changed` notification if the batch was non-empty.  The
scheduler exists only in the hot-reload configuration, so the loads run
with `hot = true`. -/
def drainBatch (fs : FS) (dir : String) (st : SysState)
    (pending : List String) : DrainResult :=
  { state := pending.foldl (loadToolFile fs true dir) st
    trace := pending.map BatchAction.reload ++ if pending.isEmpty then [] else [BatchAction.notify] }

/-! ## Derived-name sets -/

/-- The tool names an evaluated module contributes under a base name: the
base name itself when the default export passes the guard, and
`baseName + "_" + key` for every accepted named export. -/
def acceptedExportNames (baseName : String) (m : JSModule) : List String :=
  (match alookup m "default" with
   | some v => if isToolDefinition v then [baseName] else []
   | none => []) ++
  (m.filter (fun kv => kv.1 != "default" && isToolDefinition kv.2)).map
    (fun kv => baseName ++ "_" ++ kv.1)

/-- The names derivable from a file's current content: nothing for a
deleted or failing file, the accepted export names otherwise. -/
def exportedToolNames (baseName : String) : LoadOutcome → List String
  | .success m => acceptedExportNames baseName m
  | _ => []

/-- Every cache-buster token in the cache is older than the clock — true
in every reachable state, since tokens are stamped from the clock and the
clock advances at each import. -/
def cacheFresh (st : SysState) : Prop :=
  ∀ req m t, (req, m) ∈ st.cache → req.token = some t → t < st.now

/-- Every token-free cached module for a file matches the file's current
content (true during the initial scan: nothing was re-imported yet). -/
def cacheCoherent (fs : FS) (dir : String) (st : SysState) : Prop :=
  ∀ file m, alookup st.cache (ImportReq.mk (joinPath dir file) none) = some m →
    fs file = LoadOutcome.success m

/-! ## Registry lemmas -/

theorem ownedNames_registerTool_self (n : String) (tool : List (String × FieldValue))
    (b : String) (st : SysState) :
    ownedNames (registerTool n tool b st) b = setAdd (ownedNames st b) n := by
  simp [registerTool, ownedNames, alookup_aset_self]

theorem ownedNames_registerTool_ne (n : String) (tool : List (String × FieldValue))
    (b b' : String) (st : SysState) (h : b ≠ b') :
    ownedNames (registerTool n tool b st) b' = ownedNames st b' := by
  simp [registerTool, ownedNames, alookup_aset_ne _ _ _ _ h]

theorem serverTools_registerTool_self (n : String) (tool : List (String × FieldValue))
    (b : String) (st : SysState) :
    alookup (registerTool n tool b st).serverTools n = some (mkRegisteredEntry tool) := by
  simp [registerTool, alookup_aset_self]

theorem serverTools_registerTool_ne (n n' : String) (tool : List (String × FieldValue))
    (b : String) (st : SysState) (h : n ≠ n') :
    alookup (registerTool n tool b st).serverTools n' = alookup st.serverTools n' := by
  simp [registerTool, alookup_aset_ne _ _ _ _ h]

theorem foldl_adel_alookup {β : Type} (names : List String) :
    ∀ (srv : List (String × β)) (x : String),
      alookup (names.foldl (fun m n => adel m n) srv) x =
        if x ∈ names then none else alookup srv x := by
  induction names with
  | nil => intro srv x; simp
  | cons n names ih =>
      intro srv x
      rw [List.foldl_cons, ih]
      by_cases hmem : x ∈ names
      · simp [hmem]
      · by_cases hx : x = n
        · subst hx; simp [hmem, alookup_adel_self]
        · simp [hmem, hx, alookup_adel_ne _ _ _ (Ne.symm hx)]

theorem serverTools_unregisterFileTools (st : SysState) (file : String) (n : String) :
    alookup (unregisterFileTools st file).serverTools n =
      if n ∈ ownedNames st (stripExt file) then none
      else alookup st.serverTools n := by
  unfold unregisterFileTools
  cases h : alookup st.registeredTools (stripExt file) with
  | none => simp [ownedNames, h]
  | some names => simp [ownedNames, h, foldl_adel_alookup]

theorem ownedNames_unregisterFileTools_self (st : SysState) (file : String) :
    ownedNames (unregisterFileTools st file) (stripExt file) = [] := by
  unfold unregisterFileTools
  cases h : alookup st.registeredTools (stripExt file) with
  | none => simp [ownedNames, h]
  | some names => simp [ownedNames, h, alookup_adel_self]

theorem ownedNames_unregisterFileTools_ne (st : SysState) (file : String) (b : String)
    (h : b ≠ stripExt file) :
    ownedNames (unregisterFileTools st file) b = ownedNames st b := by
  unfold unregisterFileTools
  cases hl : alookup st.registeredTools (stripExt file) with
  | none => simp [hl]
  | some names => simp [ownedNames, hl, alookup_adel_ne _ _ _ (Ne.symm h)]

theorem mem_owned_namedExportsFold (b : String) (m : JSModule) :
    ∀ (st : SysState) (n : String),
      n ∈ ownedNames
          (m.foldl
            (fun s kv =>
              if kv.1 != "default" && isToolDefinition kv.2 then
                registerTool (b ++ "_" ++ kv.1) (exportFields kv.2) b s
              else s)
            st) b ↔
        n ∈ ownedNames st b ∨
          n ∈ (m.filter (fun kv => kv.1 != "default" && isToolDefinition kv.2)).map
                (fun kv => b ++ "_" ++ kv.1) := by
  induction m with
  | nil => intro st n; simp
  | cons kv rest ih =>
      intro st n
      by_cases hacc : (kv.1 != "default" && isToolDefinition kv.2) = true
      · rw [List.foldl_cons, if_pos hacc, ih, ownedNames_registerTool_self]
        simp only [List.filter_cons, hacc, if_true, List.map_cons, List.mem_cons,
          mem_setAdd]
        tauto
      · rw [List.foldl_cons, if_neg hacc]
        simp only [List.filter_cons, hacc, if_false, Bool.false_eq_true]
        exact ih st n

theorem mem_owned_registerModuleExports (b : String) (m : JSModule) (st : SysState)
    (n : String) :
    n ∈ ownedNames (registerModuleExports b m st) b ↔
      n ∈ ownedNames st b ∨ n ∈ acceptedExportNames b m := by
  unfold registerModuleExports acceptedExportNames
  rw [mem_owned_namedExportsFold, List.mem_append]
  cases hdef : alookup m "default" with
  | none => simp
  | some v =>
      by_cases htool : isToolDefinition v = true
      · simp only [htool, if_true, ownedNames_registerTool_self, mem_setAdd,
          List.mem_singleton]
        tauto
      · simp only [htool, if_false, Bool.false_eq_true, List.not_mem_nil]
        tauto

theorem alookup_mem {α β : Type} [DecidableEq α] (l : List (α × β)) (k : α) (v : β)
    (h : alookup l k = some v) : (k, v) ∈ l := by
  induction l with
  | nil => simp [alookup] at h
  | cons hd tl ih =>
      obtain ⟨k', v'⟩ := hd
      simp only [alookup] at h
      split at h
      · rename_i hk
        subst hk
        injection h with h
        subst h
        exact List.mem_cons_self _ _
      · exact List.mem_cons_of_mem _ (ih h)

theorem mem_aset {α β : Type} [DecidableEq α] (l : List (α × β)) (k : α) (v : β)
    (e : α × β) (h : e ∈ aset l k v) : e ∈ l ∨ e = (k, v) := by
  induction l with
  | nil => simpa [aset] using h
  | cons hd tl ih =>
      obtain ⟨k', v'⟩ := hd
      simp only [aset] at h
      split at h
      · rename_i hk
        subst hk
        rcases List.mem_cons.mp h with h1 | h1
        · exact Or.inr h1
        · exact Or.inl (List.mem_cons_of_mem _ h1)
      · rcases List.mem_cons.mp h with h1 | h1
        · exact Or.inl (by simp [h1])
        · rcases ih h1 with h2 | h2
          · exact Or.inl (List.mem_cons_of_mem _ h2)
          · exact Or.inr h2

/-! ## Registered names always have a live server entry -/

theorem owned_isSome_registerTool (n' : String) (tool : List (String × FieldValue))
    (b : String) (st : SysState)
    (hinv : ∀ n, n ∈ ownedNames st b → (alookup st.serverTools n).isSome = true) :
    ∀ n, n ∈ ownedNames (registerTool n' tool b st) b →
      (alookup (registerTool n' tool b st).serverTools n).isSome = true := by
  intro n hn
  rw [ownedNames_registerTool_self, mem_setAdd] at hn
  by_cases he : n = n'
  · subst he; rw [serverTools_registerTool_self]; rfl
  · rw [serverTools_registerTool_ne _ _ _ _ _ (Ne.symm he)]
    exact hinv n (hn.resolve_right he)

theorem owned_isSome_namedExportsFold (b : String) (m : JSModule) :
    ∀ st : SysState,
      (∀ n, n ∈ ownedNames st b → (alookup st.serverTools n).isSome = true) →
      ∀ n, n ∈ ownedNames
          (m.foldl
            (fun s kv =>
              if kv.1 != "default" && isToolDefinition kv.2 then
                registerTool (b ++ "_" ++ kv.1) (exportFields kv.2) b s
              else s)
            st) b →
        (alookup
          (m.foldl
            (fun s kv =>
              if kv.1 != "default" && isToolDefinition kv.2 then
                registerTool (b ++ "_" ++ kv.1) (exportFields kv.2) b s
              else s)
            st).serverTools n).isSome = true := by
  induction m with
  | nil => intro st hinv n hn; exact hinv n hn
  | cons kv rest ih =>
      intro st hinv n
      by_cases hacc : (kv.1 != "default" && isToolDefinition kv.2) = true
      · rw [List.foldl_cons, if_pos hacc]
        exact ih _ (owned_isSome_registerTool _ _ _ _ hinv) n
      · rw [List.foldl_cons, if_neg hacc]
        exact ih _ hinv n

theorem owned_isSome_registerModuleExports (b : String) (m : JSModule) (st : SysState)
    (hinv : ∀ n, n ∈ ownedNames st b → (alookup st.serverTools n).isSome = true) :
    ∀ n, n ∈ ownedNames (registerModuleExports b m st) b →
      (alookup (registerModuleExports b m st).serverTools n).isSome = true := by
  unfold registerModuleExports
  cases hdef : alookup m "default" with
  | none => exact owned_isSome_namedExportsFold b m st hinv
  | some v =>
      by_cases htool : isToolDefinition v = true
      · simp only [htool, if_true]
        exact owned_isSome_namedExportsFold b m _
          (owned_isSome_registerTool _ _ _ _ hinv)
      · simp only [htool, if_false, Bool.false_eq_true]
        exact owned_isSome_namedExportsFold b m st hinv

/-! ## Fields of the state untouched by each phase -/

theorem cache_unregisterFileTools (st : SysState) (file : String) :
    (unregisterFileTools st file).cache = st.cache := by
  simp only [unregisterFileTools]
  cases h : alookup st.registeredTools (stripExt file) <;> simp [h]

theorem now_unregisterFileTools (st : SysState) (file : String) :
    (unregisterFileTools st file).now = st.now := by
  simp only [unregisterFileTools]
  cases h : alookup st.registeredTools (stripExt file) <;> simp [h]

theorem cache_registerTool (n : String) (tool : List (String × FieldValue))
    (b : String) (st : SysState) : (registerTool n tool b st).cache = st.cache := rfl

theorem now_registerTool (n : String) (tool : List (String × FieldValue))
    (b : String) (st : SysState) : (registerTool n tool b st).now = st.now := rfl

theorem cache_registerModuleExports (b : String) (m : JSModule) :
    ∀ st : SysState, (registerModuleExports b m st).cache = st.cache := by
  have hfold : ∀ (l : JSModule) (st : SysState),
      (l.foldl
        (fun s kv =>
          if kv.1 != "default" && isToolDefinition kv.2 then
            registerTool (b ++ "_" ++ kv.1) (exportFields kv.2) b s
          else s)
        st).cache = st.cache := by
    intro l
    induction l with
    | nil => intro st; rfl
    | cons kv rest ih =>
        intro st
        rw [List.foldl_cons]
        by_cases hacc : (kv.1 != "default" && isToolDefinition kv.2) = true
        · rw [if_pos hacc, ih, cache_registerTool]
        · rw [if_neg hacc, ih]
  intro st
  unfold registerModuleExports
  cases hdef : alookup m "default" with
  | none => exact hfold m st
  | some v =>
      by_cases htool : isToolDefinition v = true
      · simp only [htool, if_true, hfold, cache_registerTool]
      · simp only [htool, if_false, Bool.false_eq_true, hfold]

theorem now_registerModuleExports (b : String) (m : JSModule) :
    ∀ st : SysState, (registerModuleExports b m st).now = st.now := by
  have hfold : ∀ (l : JSModule) (st : SysState),
      (l.foldl
        (fun s kv =>
          if kv.1 != "default" && isToolDefinition kv.2 then
            registerTool (b ++ "_" ++ kv.1) (exportFields kv.2) b s
          else s)
        st).now = st.now := by
    intro l
    induction l with
    | nil => intro st; rfl
    | cons kv rest ih =>
        intro st
        rw [List.foldl_cons]
        by_cases hacc : (kv.1 != "default" && isToolDefinition kv.2) = true
        · rw [if_pos hacc, ih, now_registerTool]
        · rw [if_neg hacc, ih]
  intro st
  unfold registerModuleExports
  cases hdef : alookup m "default" with
  | none => exact hfold m st
  | some v =>
      by_cases htool : isToolDefinition v = true
      · simp only [htool, if_true, hfold, now_registerTool]
      · simp only [htool, if_false, Bool.false_eq_true, hfold]

theorem ownedNames_mk (r : List (String × List String))
    (s : List (String × RegisteredEntry)) (l : List String)
    (c : List (ImportReq × JSModule)) (t : Nat) (b : String) :
    ownedNames ⟨r, s, l, c, t⟩ b = (alookup r b).getD [] := rfl

/-! ## The per-file reload characterization -/

theorem mem_owned_loadToolFile (fs : FS) (hot : Bool) (dir : String) (st : SysState)
    (file : String) (hext : isToolSourceFile file = true)
    (hmiss : alookup st.cache (mkImportReq hot (joinPath dir file) st.now) = none)
    (n : String) :
    n ∈ ownedNames (loadToolFile fs hot dir st file) (stripExt file) ↔
      n ∈ exportedToolNames (stripExt file) (fs file) := by
  unfold loadToolFile
  simp only [hext, Bool.not_true, Bool.false_eq_true, if_false]
  have hcache : (unregisterFileTools st file).cache = st.cache :=
    cache_unregisterFileTools st file
  have hnow : (unregisterFileTools st file).now = st.now :=
    now_unregisterFileTools st file
  have h0 := ownedNames_unregisterFileTools_self st file
  rw [ownedNames] at h0
  cases hfs : fs file with
  | notFound =>
      rw [ownedNames_mk, h0]
      simp [exportedToolNames]
  | loadFailure msg =>
      simp only [resolveImport, hcache, hnow, hmiss]
      rw [ownedNames_mk, h0]
      simp [exportedToolNames]
  | success m =>
      simp only [resolveImport, hcache, hnow, hmiss]
      rw [mem_owned_registerModuleExports, ownedNames_mk, h0]
      simp [exportedToolNames]

theorem ownedNames_registerModuleExports_ne (b b' : String) (m : JSModule)
    (h : b ≠ b') : ∀ st : SysState,
    ownedNames (registerModuleExports b m st) b' = ownedNames st b' := by
  have hfold : ∀ (l : JSModule) (st : SysState),
      ownedNames
        (l.foldl
          (fun s kv =>
            if kv.1 != "default" && isToolDefinition kv.2 then
              registerTool (b ++ "_" ++ kv.1) (exportFields kv.2) b s
            else s)
          st) b' = ownedNames st b' := by
    intro l
    induction l with
    | nil => intro st; rfl
    | cons kv rest ih =>
        intro st
        rw [List.foldl_cons]
        by_cases hacc : (kv.1 != "default" && isToolDefinition kv.2) = true
        · rw [if_pos hacc, ih, ownedNames_registerTool_ne _ _ _ _ _ h]
        · rw [if_neg hacc, ih]
  intro st
  unfold registerModuleExports
  cases hdef : alookup m "default" with
  | none => exact hfold m st
  | some v =>
      by_cases htool : isToolDefinition v = true
      · simp only [htool, if_true, hfold, ownedNames_registerTool_ne _ _ _ _ _ h]
      · simp only [htool, if_false, Bool.false_eq_true, hfold]

theorem ownedNames_loadToolFile_frame (fs : FS) (hot : Bool) (dir : String)
    (st : SysState) (file : String) (b : String)
    (h : isToolSourceFile file = false ∨ stripExt file ≠ b) :
    ownedNames (loadToolFile fs hot dir st file) b = ownedNames st b := by
  rcases h with h | h
  · unfold loadToolFile
    simp [h]
  · unfold loadToolFile
    by_cases hext : isToolSourceFile file = true
    · simp only [hext, Bool.not_true, Bool.false_eq_true, if_false]
      have h1 := ownedNames_unregisterFileTools_ne st file b (Ne.symm h)
      rw [ownedNames] at h1
      cases hfs : fs file with
      | notFound => rw [ownedNames_mk, h1]
      | loadFailure msg =>
          simp only [resolveImport]
          cases halk : alookup (unregisterFileTools st file).cache
              (mkImportReq hot (joinPath dir file) (unregisterFileTools st file).now) with
          | some m2 =>
              simp only [halk]
              rw [ownedNames_registerModuleExports_ne _ _ _ h, ownedNames_mk, h1]
          | none =>
              simp only [halk]
              rw [ownedNames_mk, h1]
      | success m =>
          simp only [resolveImport]
          cases halk : alookup (unregisterFileTools st file).cache
              (mkImportReq hot (joinPath dir file) (unregisterFileTools st file).now) with
          | some m2 =>
              simp only [halk]
              rw [ownedNames_registerModuleExports_ne _ _ _ h, ownedNames_mk, h1]
          | none =>
              simp only [halk]
              rw [ownedNames_registerModuleExports_ne _ _ _ h, ownedNames_mk, h1]
    · simp [Bool.not_eq_true _ ▸ hext]

/-! ## Ownership implies a live server entry, per reload -/

theorem owned_isSome_loadToolFile (fs : FS) (hot : Bool) (dir : String)
    (st : SysState) (file : String) (hext : isToolSourceFile file = true) :
    ∀ n, n ∈ ownedNames (loadToolFile fs hot dir st file) (stripExt file) →
      (alookup (loadToolFile fs hot dir st file).serverTools n).isSome = true := by
  unfold loadToolFile
  simp only [hext, Bool.not_true, Bool.false_eq_true, if_false]
  have h0 := ownedNames_unregisterFileTools_self st file
  rw [ownedNames] at h0
  cases hfs : fs file with
  | notFound =>
      intro n hn
      rw [ownedNames_mk, h0] at hn
      exact absurd hn (List.not_mem_nil n)
  | loadFailure msg =>
      simp only [resolveImport]
      cases halk : alookup (unregisterFileTools st file).cache
          (mkImportReq hot (joinPath dir file) (unregisterFileTools st file).now) with
      | some m2 =>
          simp only [halk]
          apply owned_isSome_registerModuleExports
          intro n hn
          rw [ownedNames_mk, h0] at hn
          exact absurd hn (List.not_mem_nil n)
      | none =>
          simp only [halk]
          intro n hn
          rw [ownedNames_mk, h0] at hn
          exact absurd hn (List.not_mem_nil n)
  | success m =>
      simp only [resolveImport]
      cases halk : alookup (unregisterFileTools st file).cache
          (mkImportReq hot (joinPath dir file) (unregisterFileTools st file).now) with
      | some m2 =>
          simp only [halk]
          apply owned_isSome_registerModuleExports
          intro n hn
          rw [ownedNames_mk, h0] at hn
          exact absurd hn (List.not_mem_nil n)
      | none =>
          simp only [halk]
          apply owned_isSome_registerModuleExports
          intro n hn
          rw [ownedNames_mk, h0] at hn
          exact absurd hn (List.not_mem_nil n)

/-! ## Log lemmas -/

theorem log_prefix_unregisterFileTools (st : SysState) (file : String) :
    st.log <+: (unregisterFileTools st file).log := by
  simp only [unregisterFileTools]
  cases h : alookup st.registeredTools (stripExt file) with
  | none => simp
  | some names => simp [h, List.prefix_append]

theorem log_prefix_registerModuleExports (b : String) (m : JSModule) :
    ∀ st : SysState, st.log <+: (registerModuleExports b m st).log := by
  have hfold : ∀ (l : JSModule) (st : SysState),
      st.log <+:
        (l.foldl
          (fun s kv =>
            if kv.1 != "default" && isToolDefinition kv.2 then
              registerTool (b ++ "_" ++ kv.1) (exportFields kv.2) b s
            else s)
          st).log := by
    intro l
    induction l with
    | nil => intro st; exact List.prefix_refl _
    | cons kv rest ih =>
        intro st
        rw [List.foldl_cons]
        by_cases hacc : (kv.1 != "default" && isToolDefinition kv.2) = true
        · rw [if_pos hacc]
          refine List.IsPrefix.trans ?_ (ih _)
          exact List.prefix_append _ _
        · rw [if_neg hacc]
          exact ih st
  intro st
  unfold registerModuleExports
  cases hdef : alookup m "default" with
  | none => exact hfold m st
  | some v =>
      by_cases htool : isToolDefinition v = true
      · simp only [htool, if_true]
        refine List.IsPrefix.trans ?_ (hfold m _)
        exact List.prefix_append _ _
      · simp only [htool, if_false, Bool.false_eq_true]
        exact hfold m st

theorem log_prefix_registerModuleExports' (b : String) (m : JSModule)
    (st : SysState) (l : List String) (h : l <+: st.log) :
    l <+: (registerModuleExports b m st).log :=
  h.trans (log_prefix_registerModuleExports b m st)

theorem log_prefix_loadToolFile (fs : FS) (hot : Bool) (dir : String)
    (st : SysState) (file : String) :
    st.log <+: (loadToolFile fs hot dir st file).log := by
  unfold loadToolFile
  by_cases hext : isToolSourceFile file = true
  · simp only [hext, Bool.not_true, Bool.false_eq_true, if_false]
    have h1 := log_prefix_unregisterFileTools st file
    cases hfs : fs file with
    | notFound => exact h1.trans (List.prefix_append _ _)
    | loadFailure msg =>
        simp only [resolveImport]
        cases halk : alookup (unregisterFileTools st file).cache
            (mkImportReq hot (joinPath dir file) (unregisterFileTools st file).now) with
        | some m2 =>
            simp only [halk]
            exact log_prefix_registerModuleExports' _ _ _ _ h1
        | none =>
            simp only [halk]
            apply List.IsPrefix.trans h1
            exact List.prefix_append _ _
    | success m =>
        simp only [resolveImport]
        cases halk : alookup (unregisterFileTools st file).cache
            (mkImportReq hot (joinPath dir file) (unregisterFileTools st file).now) with
        | some m2 =>
            simp only [halk]
            exact log_prefix_registerModuleExports' _ _ _ _ h1
        | none =>
            simp only [halk]
            exact log_prefix_registerModuleExports' _ _ _ _ h1
  · simp [Bool.not_eq_true _ ▸ hext]

theorem failureLog_loadToolFile (fs : FS) (hot : Bool) (dir : String)
    (st : SysState) (file msg : String) (hext : isToolSourceFile file = true)
    (hmiss : alookup st.cache (mkImportReq hot (joinPath dir file) st.now) = none)
    (hfail : fs file = LoadOutcome.loadFailure msg) :
    ("Failed to load " ++ file ++ ": " ++ msg) ∈ (loadToolFile fs hot dir st file).log := by
  unfold loadToolFile
  simp only [hext, Bool.not_true, Bool.false_eq_true, if_false, hfail]
  have hcache : (unregisterFileTools st file).cache = st.cache :=
    cache_unregisterFileTools st file
  have hnow : (unregisterFileTools st file).now = st.now :=
    now_unregisterFileTools st file
  simp only [resolveImport, hcache, hnow, hmiss]
  exact List.mem_append_right _ (List.mem_singleton.mpr rfl)

/-! ## Clock and cache invariants -/

theorem now_le_loadToolFile (fs : FS) (hot : Bool) (dir : String)
    (st : SysState) (file : String) :
    st.now ≤ (loadToolFile fs hot dir st file).now := by
  unfold loadToolFile
  by_cases hext : isToolSourceFile file = true
  · simp only [hext, Bool.not_true, Bool.false_eq_true, if_false]
    have hnow : (unregisterFileTools st file).now = st.now :=
      now_unregisterFileTools st file
    cases hfs : fs file with
    | notFound => exact le_of_eq hnow.symm
    | loadFailure msg =>
        simp only [resolveImport]
        cases halk : alookup (unregisterFileTools st file).cache
            (mkImportReq hot (joinPath dir file) (unregisterFileTools st file).now) with
        | some m2 =>
            simp only [halk, now_registerModuleExports]
            omega
        | none =>
            simp only [halk]
            omega
    | success m =>
        simp only [resolveImport]
        cases halk : alookup (unregisterFileTools st file).cache
            (mkImportReq hot (joinPath dir file) (unregisterFileTools st file).now) with
        | some m2 =>
            simp only [halk, now_registerModuleExports]
            omega
        | none =>
            simp only [halk, now_registerModuleExports]
            omega
  · simp [Bool.not_eq_true _ ▸ hext]

theorem cacheFresh_loadToolFile (fs : FS) (hot : Bool) (dir : String)
    (st : SysState) (file : String) (hfresh : cacheFresh st) :
    cacheFresh (loadToolFile fs hot dir st file) := by
  unfold loadToolFile
  by_cases hext : isToolSourceFile file = true
  · simp only [hext, Bool.not_true, Bool.false_eq_true, if_false]
    have hnow : (unregisterFileTools st file).now = st.now :=
      now_unregisterFileTools st file
    have hcache : (unregisterFileTools st file).cache = st.cache :=
      cache_unregisterFileTools st file
    cases hfs : fs file with
    | notFound =>
        intro req m t hmem htok
        rw [show (SysState.cache _) = st.cache from hcache] at hmem
        exact hnow ▸ hfresh req m t hmem htok
    | loadFailure msg =>
        simp only [resolveImport, hcache, hnow]
        cases halk : alookup st.cache (mkImportReq hot (joinPath dir file) st.now) with
        | some m2 =>
            simp only [halk]
            intro req m t hmem htok
            rw [cache_registerModuleExports] at hmem
            rw [now_registerModuleExports]
            exact Nat.lt_succ_of_lt (hfresh req m t hmem htok)
        | none =>
            simp only [halk]
            intro req m t hmem htok
            exact Nat.lt_succ_of_lt (hfresh req m t hmem htok)
    | success m0 =>
        simp only [resolveImport, hcache, hnow]
        cases halk : alookup st.cache (mkImportReq hot (joinPath dir file) st.now) with
        | some m2 =>
            simp only [halk]
            intro req m t hmem htok
            rw [cache_registerModuleExports] at hmem
            rw [now_registerModuleExports]
            exact Nat.lt_succ_of_lt (hfresh req m t hmem htok)
        | none =>
            simp only [halk]
            intro req m t hmem htok
            rw [cache_registerModuleExports] at hmem
            rw [now_registerModuleExports]
            rcases mem_aset _ _ _ _ hmem with hold | hnew
            · exact Nat.lt_succ_of_lt (hfresh req m t hold htok)
            · cases hot with
              | true =>
                  rw [Prod.ext_iff] at hnew
                  obtain ⟨hreq, -⟩ := hnew
                  subst hreq
                  simp only [mkImportReq, if_true] at htok
                  injection htok with htok
                  show t < st.now + 1
                  omega
              | false =>
                  rw [Prod.ext_iff] at hnew
                  obtain ⟨hreq, -⟩ := hnew
                  subst hreq
                  simp only [mkImportReq, Bool.false_eq_true, if_false] at htok
                  cases htok
  · simp only [hext, Bool.not_eq_true, Bool.not_false] at *
    simp [hext]
    exact hfresh

theorem miss_of_cacheFresh (st : SysState) (path : String) (hfresh : cacheFresh st) :
    alookup st.cache (mkImportReq true path st.now) = none := by
  cases halk : alookup st.cache (mkImportReq true path st.now) with
  | none => rfl
  | some m =>
      have hmem := alookup_mem _ _ _ halk
      have := hfresh _ m st.now hmem (by simp [mkImportReq])
      omega

/-! ## Concrete fixtures used by witnesses -/

/-- A well-formed capability export: a string description and a callable
execute. -/
def demoTool (tag : String) : ExportValue :=
  .obj [("description", .data (.str ("tool " ++ tag))),
        ("execute", .func (fun _ _ => Except.ok (JSData.str tag)))]

/-- `math.ts` before an edit: named exports `add` and `multiply`. -/
def demoFsOld : FS := fun file =>
  if file = "math.ts" then
    .success [("add", demoTool "add"), ("multiply", demoTool "mul")]
  else .notFound

/-- `math.ts` after the edit: `multiply` removed, `subtract` added. -/
def demoFsNew : FS := fun file =>
  if file = "math.ts" then
    .success [("add", demoTool "add"), ("subtract", demoTool "sub")]
  else .notFound

/-- The state after the initial load of the old `math.ts`. -/
def demoSt0 : SysState := loadToolFile demoFsOld true "tools" initState "math.ts"

/-- C1: after any completed `loadToolFile` run for a tool file, the set of
capability names registered as owned by that file exactly equals the set
derived from the file's current exports — no leftover stale name, no
missing current name — and every owned name has a live entry in the
server's tool table. -/
theorem reload_owned_names_eq_current_exports (fs : FS) (hot : Bool) (dir : String)
    (st : SysState) (file : String) (hext : isToolSourceFile file = true)
    (hmiss : alookup st.cache (mkImportReq hot (joinPath dir file) st.now) = none) :
    (∀ n, n ∈ ownedNames (loadToolFile fs hot dir st file) (stripExt file) ↔
        n ∈ exportedToolNames (stripExt file) (fs file)) ∧
    (∀ n, n ∈ ownedNames (loadToolFile fs hot dir st file) (stripExt file) →
        (alookup (loadToolFile fs hot dir st file).serverTools n).isSome = true) :=
  ⟨mem_owned_loadToolFile fs hot dir st file hext hmiss,
   owned_isSome_loadToolFile fs hot dir st file hext⟩

/-- C1 witness: reloading the edited `math.ts` over the state that held the
old version leaves exactly the new names: `math_subtract` is owned iff
currently exported (it is), `math_multiply` is owned iff currently
exported (it is not). -/
theorem reload_owned_names_eq_current_exports_witness :
    ("math_subtract" ∈ ownedNames (loadToolFile demoFsNew true "tools" demoSt0 "math.ts")
        (stripExt "math.ts") ↔
      "math_subtract" ∈ exportedToolNames (stripExt "math.ts") (demoFsNew "math.ts")) ∧
    ("math_multiply" ∈ ownedNames (loadToolFile demoFsNew true "tools" demoSt0 "math.ts")
        (stripExt "math.ts") ↔
      "math_multiply" ∈ exportedToolNames (stripExt "math.ts") (demoFsNew "math.ts")) :=
  ⟨(reload_owned_names_eq_current_exports demoFsNew true "tools" demoSt0 "math.ts"
      (by decide) (by rfl)).1 "math_subtract",
   (reload_owned_names_eq_current_exports demoFsNew true "tools" demoSt0 "math.ts"
      (by decide) (by rfl)).1 "math_multiply"⟩

/-! ## The adapter and behavior failure -/

/-- The arguments the adapter callback passes to `execute`: the sink-parsed
arguments when a schema was registered, the empty object otherwise. -/
def adapterCallArgs (tool : List (String × FieldValue)) (args : JSData) : JSData :=
  match computedSchema tool with
  | some _ => args
  | none => JSData.obj []

/-- A syntactically valid tool whose execute behavior always throws. -/
def failingToolFields : List (String × FieldValue) :=
  [("description", .data (.str "always fails")),
   ("execute", .func (fun _ _ => Except.error "boom"))]

/-- C2 counterexample: for the concrete tool whose `execute` throws
`"boom"`, the adapter-wrapped handler does **not** return a response
envelope indicating failure — the failure escapes the adapter unchanged
(the callback in `registerTool` has no try/catch). -/
theorem adapter_failure_escapes_counterexample :
    handlerRun (mkHandler failingToolFields (computedSchema failingToolFields))
        (JSData.obj []) JSData.null = Except.error "boom" ∧
    (handlerRun (mkHandler failingToolFields (computedSchema failingToolFields))
        (JSData.obj []) JSData.null).isOk = false :=
  ⟨rfl, rfl⟩

/-- C2 amended: if the execute behavior invoked by the adapter throws or
rejects with message `msg`, the adapter-wrapped handler propagates exactly
`Except.error msg` out of the adapter — it catches nothing and builds no
envelope; containment is left to the external sink. -/
theorem adapter_propagates_execute_failure (tool : List (String × FieldValue))
    (args extra : JSData) (msg : String)
    (hfail : toolExecute tool (adapterCallArgs tool args) extra = Except.error msg) :
    handlerRun (mkHandler tool (computedSchema tool)) args extra = Except.error msg := by
  cases hcs : computedSchema tool with
  | some s =>
      rw [adapterCallArgs, hcs] at hfail
      simp [mkHandler, handlerRun, hfail, Except.map]
  | none =>
      rw [adapterCallArgs, hcs] at hfail
      simp [mkHandler, handlerRun, hfail, Except.map]

/-- C2 amended witness: the failing tool instantiated at a concrete call. -/
theorem adapter_propagates_execute_failure_witness :
    handlerRun (mkHandler failingToolFields (computedSchema failingToolFields))
        JSData.null JSData.null = Except.error "boom" :=
  adapter_propagates_execute_failure failingToolFields JSData.null JSData.null "boom" rfl

/-! ## Debounce batching -/

theorem nodup_setAdd (s : List String) (x : String) (h : s.Nodup) :
    (setAdd s x).Nodup := by
  rw [setAdd]
  split
  · exact h
  · rename_i hmem
    rw [List.nodup_append]
    exact ⟨h, List.nodup_singleton x, fun a ha hax => hmem (List.mem_singleton.mp hax ▸ ha)⟩

theorem nodup_watchEvent (s : List String) (ev : Option String) (h : s.Nodup) :
    (watchEvent s ev).Nodup := by
  cases ev with
  | none => exact h
  | some f =>
      rw [watchEvent]
      split
      · exact nodup_setAdd s f h
      · exact h

theorem nodup_foldl_watchEvent (events : List (Option String)) :
    ∀ s : List String, s.Nodup → (events.foldl watchEvent s).Nodup := by
  induction events with
  | nil => intro s h; exact h
  | cons ev rest ih =>
      intro s h
      rw [List.foldl_cons]
      exact ih _ (nodup_watchEvent s ev h)

theorem reload_injective : Function.Injective BatchAction.reload := by
  intro a b h
  injection h

/-- C3: for the pending set accumulated by the watcher callback from any
stream of raw events, draining the batch reloads each distinct filename
exactly once (repeated events for one file coalesce), sends exactly one
list-changed notification when the batch is non-empty (none when empty),
and the notification comes after all the reloads of the batch. -/
theorem drain_coalesces_reloads_and_notifies_once (fs : FS) (dir : String)
    (st : SysState) (events : List (Option String)) :
    (events.foldl watchEvent []).Nodup ∧
    (∀ f, (drainBatch fs dir st (events.foldl watchEvent [])).trace.count
        (BatchAction.reload f) =
      if f ∈ events.foldl watchEvent [] then 1 else 0) ∧
    ((drainBatch fs dir st (events.foldl watchEvent [])).trace.count
        BatchAction.notify =
      if (events.foldl watchEvent []).isEmpty then 0 else 1) ∧
    (events.foldl watchEvent [] ≠ [] →
      (drainBatch fs dir st (events.foldl watchEvent [])).trace =
        (events.foldl watchEvent []).map BatchAction.reload ++ [BatchAction.notify]) := by
  have hnd : (events.foldl watchEvent []).Nodup :=
    nodup_foldl_watchEvent events [] List.nodup_nil
  refine ⟨hnd, ?_, ?_, ?_⟩
  · intro f
    rw [drainBatch]
    simp only [List.count_append]
    rw [List.count_map_of_injective _ _ reload_injective]
    have hzero : (if (events.foldl watchEvent []).isEmpty then ([] : List BatchAction)
        else [BatchAction.notify]).count (BatchAction.reload f) = 0 := by
      split <;> simp
    rw [hzero]
    by_cases hf : f ∈ events.foldl watchEvent []
    · rw [if_pos hf, List.count_eq_one_of_mem hnd hf]
    · rw [if_neg hf, List.count_eq_zero_of_not_mem hf]
  · rw [drainBatch]
    simp only [List.count_append]
    have hzero : (List.map BatchAction.reload (events.foldl watchEvent [])).count
        BatchAction.notify = 0 := by
      apply List.count_eq_zero_of_not_mem
      simp
    rw [hzero]
    split <;> simp
  · intro hne
    rw [drainBatch]
    simp [List.isEmpty_iff, hne]

/-- C3 witness: five raw events for `math.ts` inside one quiescence window
coalesce to a single reload of `math.ts` and a single notification. -/
theorem drain_coalesces_reloads_and_notifies_once_witness :
    (drainBatch demoFsNew "tools" initState
        ([some "math.ts", some "math.ts", some "math.ts", some "math.ts",
          some "math.ts"].foldl watchEvent [])).trace.count
        (BatchAction.reload "math.ts") = 1 ∧
    (drainBatch demoFsNew "tools" initState
        ([some "math.ts", some "math.ts", some "math.ts", some "math.ts",
          some "math.ts"].foldl watchEvent [])).trace.count BatchAction.notify = 1 :=
  ⟨((drain_coalesces_reloads_and_notifies_once demoFsNew "tools" initState
      [some "math.ts", some "math.ts", some "math.ts", some "math.ts",
        some "math.ts"]).2.1 "math.ts").trans (by decide),
   ((drain_coalesces_reloads_and_notifies_once demoFsNew "tools" initState
      [some "math.ts", some "math.ts", some "math.ts", some "math.ts",
        some "math.ts"]).2.2.1).trans (by decide)⟩

/-! ## Batch-level lemmas -/

theorem cacheFresh_foldl (fs : FS) (hot : Bool) (dir : String) (l : List String) :
    ∀ st : SysState, cacheFresh st →
      cacheFresh (l.foldl (loadToolFile fs hot dir) st) := by
  induction l with
  | nil => intro st h; exact h
  | cons z rest ih =>
      intro st h
      rw [List.foldl_cons]
      exact ih _ (cacheFresh_loadToolFile fs hot dir st z h)

theorem ownedNames_foldl_frame (fs : FS) (hot : Bool) (dir : String) (b : String)
    (l : List String) :
    ∀ st : SysState, (∀ z ∈ l, isToolSourceFile z = true → stripExt z ≠ b) →
      ownedNames (l.foldl (loadToolFile fs hot dir) st) b = ownedNames st b := by
  induction l with
  | nil => intro st _; rfl
  | cons z rest ih =>
      intro st h
      rw [List.foldl_cons, ih _ (fun w hw => h w (List.mem_cons_of_mem _ hw))]
      by_cases hz : isToolSourceFile z = true
      · exact ownedNames_loadToolFile_frame fs hot dir st z b
          (Or.inr (h z (List.mem_cons_self _ _) hz))
      · exact ownedNames_loadToolFile_frame fs hot dir st z b
          (Or.inl (Bool.not_eq_true _ ▸ hz))

theorem log_prefix_foldl (fs : FS) (hot : Bool) (dir : String) (l : List String) :
    ∀ st : SysState, st.log <+: (l.foldl (loadToolFile fs hot dir) st).log := by
  induction l with
  | nil => intro st; exact List.prefix_refl _
  | cons z rest ih =>
      intro st
      rw [List.foldl_cons]
      exact (log_prefix_loadToolFile fs hot dir st z).trans (ih _)

/-- C4: in a drained batch starting from a fresh-cache state, (i) each
file's final ownership record is exactly what its own current content
derives — in particular a file whose load fails ends with zero owned
capabilities, and the failure of any other file in the batch cannot change
a file's outcome — and (ii) every load failure in the batch is logged. -/
theorem load_failure_isolated_in_batch (fs : FS) (dir : String) (st : SysState)
    (pending : List String) (hfresh : cacheFresh st) :
    (∀ y l1 l2, pending = l1 ++ y :: l2 → isToolSourceFile y = true →
      (∀ z ∈ l2, isToolSourceFile z = true → stripExt z ≠ stripExt y) →
      ∀ n, n ∈ ownedNames (drainBatch fs dir st pending).state (stripExt y) ↔
        n ∈ exportedToolNames (stripExt y) (fs y)) ∧
    (∀ f msg, f ∈ pending → isToolSourceFile f = true →
      fs f = LoadOutcome.loadFailure msg →
      ("Failed to load " ++ f ++ ": " ++ msg) ∈ (drainBatch fs dir st pending).state.log) := by
  constructor
  · intro y l1 l2 hsplit hexty hl2 n
    rw [drainBatch]
    simp only [hsplit]
    rw [List.foldl_append, List.foldl_cons]
    have hfresh1 : cacheFresh (l1.foldl (loadToolFile fs true dir) st) :=
      cacheFresh_foldl fs true dir l1 st hfresh
    have hmiss := miss_of_cacheFresh _ (joinPath dir y) hfresh1
    rw [ownedNames_foldl_frame fs true dir (stripExt y) l2 _ hl2]
    exact mem_owned_loadToolFile fs true dir _ y hexty hmiss n
  · intro f msg hf hextf hfail
    obtain ⟨l1, l2, hsplit⟩ := List.append_of_mem hf
    rw [drainBatch]
    simp only [hsplit]
    rw [List.foldl_append, List.foldl_cons]
    have hfresh1 : cacheFresh (l1.foldl (loadToolFile fs true dir) st) :=
      cacheFresh_foldl fs true dir l1 st hfresh
    have hmiss := miss_of_cacheFresh _ (joinPath dir f) hfresh1
    have hlog := failureLog_loadToolFile fs true dir _ f msg hextf hmiss hfail
    exact (log_prefix_foldl fs true dir l2 _).subset hlog

/-- A batch fixture: `bad.ts` fails to load, `good.ts` exports a default
capability. -/
def batchFs : FS := fun file =>
  if file = "bad.ts" then .loadFailure "boom"
  else if file = "good.ts" then .success [("default", demoTool "good")]
  else .notFound

/-- C4 witness: in the batch `[bad.ts, good.ts]` the failing file ends
with zero owned capabilities, its failure is logged, and `good.ts` still
registers its capability. -/
theorem load_failure_isolated_in_batch_witness :
    ("good" ∈ ownedNames (drainBatch batchFs "tools" initState
        ["bad.ts", "good.ts"]).state (stripExt "good.ts")) ∧
    ¬ ("bad" ∈ ownedNames (drainBatch batchFs "tools" initState
        ["bad.ts", "good.ts"]).state (stripExt "bad.ts")) ∧
    ("Failed to load " ++ "bad.ts" ++ ": " ++ "boom") ∈
      (drainBatch batchFs "tools" initState ["bad.ts", "good.ts"]).state.log := by
  have hfresh : cacheFresh initState :=
    fun req m t hmem _ => absurd hmem (List.not_mem_nil _)
  have h := load_failure_isolated_in_batch batchFs "tools" initState
    ["bad.ts", "good.ts"] hfresh
  refine ⟨?_, ?_, ?_⟩
  · exact (h.1 "good.ts" ["bad.ts"] [] rfl (by decide) (by decide) "good").mpr (by decide)
  · intro hmem
    exact absurd ((h.1 "bad.ts" [] ["good.ts"] rfl (by decide) (by decide) "bad").mp hmem)
      (by decide)
  · exact h.2 "bad.ts" "boom" (by decide) (by decide) rfl

/-! ## Naming scheme -/

/-- C5: for a loaded tool file with base identity `b = stripExt file`, an
accepted default export is registered under the name `b`, and every
accepted named export with export name `k` is registered under
`b ++ "_" ++ k` — both recorded as owned by the file and present in the
server's tool table. -/
theorem registered_names_follow_naming_scheme (fs : FS) (hot : Bool) (dir : String)
    (st : SysState) (file : String) (m : JSModule)
    (hext : isToolSourceFile file = true)
    (hmiss : alookup st.cache (mkImportReq hot (joinPath dir file) st.now) = none)
    (hm : fs file = LoadOutcome.success m) :
    (∀ v, alookup m "default" = some v → isToolDefinition v = true →
      stripExt file ∈ ownedNames (loadToolFile fs hot dir st file) (stripExt file) ∧
      (alookup (loadToolFile fs hot dir st file).serverTools
        (stripExt file)).isSome = true) ∧
    (∀ k v, (k, v) ∈ m → k ≠ "default" → isToolDefinition v = true →
      (stripExt file ++ "_" ++ k) ∈
        ownedNames (loadToolFile fs hot dir st file) (stripExt file) ∧
      (alookup (loadToolFile fs hot dir st file).serverTools
        (stripExt file ++ "_" ++ k)).isSome = true) := by
  have hchar := mem_owned_loadToolFile fs hot dir st file hext hmiss
  have hsrv := owned_isSome_loadToolFile fs hot dir st file hext
  constructor
  · intro v hdef htool
    have hmem : stripExt file ∈ exportedToolNames (stripExt file) (fs file) := by
      rw [hm]
      simp only [exportedToolNames, acceptedExportNames, hdef, htool, if_true]
      exact List.mem_append_left _ (List.mem_singleton.mpr rfl)
    have howned := (hchar _).mpr hmem
    exact ⟨howned, hsrv _ howned⟩
  · intro k v hkv hk htool
    have hmem : (stripExt file ++ "_" ++ k) ∈
        exportedToolNames (stripExt file) (fs file) := by
      rw [hm]
      simp only [exportedToolNames, acceptedExportNames]
      refine List.mem_append_right _ ?_
      refine List.mem_map.mpr ⟨(k, v), List.mem_filter.mpr ⟨hkv, ?_⟩, rfl⟩
      simp [htool, bne_iff_ne, hk]
    have howned := (hchar _).mpr hmem
    exact ⟨howned, hsrv _ howned⟩

/-- A file exporting both a default capability and a named one. -/
def mixedFs : FS := fun file =>
  if file = "util.ts" then
    .success [("default", demoTool "main"), ("fmt", demoTool "fmt")]
  else .notFound

/-- C5 witness: loading `util.ts` registers the default export as `util`
and the named export `fmt` as `util_fmt`. -/
theorem registered_names_follow_naming_scheme_witness :
    ("util" ∈ ownedNames (loadToolFile mixedFs true "tools" initState "util.ts")
        (stripExt "util.ts") ∧
      (alookup (loadToolFile mixedFs true "tools" initState "util.ts").serverTools
        "util").isSome = true) ∧
    ("util_fmt" ∈ ownedNames (loadToolFile mixedFs true "tools" initState "util.ts")
        (stripExt "util.ts") ∧
      (alookup (loadToolFile mixedFs true "tools" initState "util.ts").serverTools
        "util_fmt").isSome = true) := by
  have h := registered_names_follow_naming_scheme mixedFs true "tools" initState
    "util.ts" [("default", demoTool "main"), ("fmt", demoTool "fmt")]
    (by decide) rfl rfl
  exact ⟨h.1 (demoTool "main") rfl (by decide),
    h.2 "fmt" (demoTool "fmt") (List.mem_cons_of_mem _ (List.mem_cons_self _ _))
      (by decide) (by decide)⟩

/-! ## Structural acceptance -/

theorem string_append_cancel_left (s t u : String) (h : s ++ t = s ++ u) : t = u := by
  apply String.ext
  have hd := congrArg String.data h
  simp only [String.data_append] at hd
  exact List.append_cancel_left hd

theorem base_ne_named (base k : String) : base ≠ base ++ "_" ++ k := by
  intro h
  have hlen := congrArg String.length h
  rw [String.length_append, String.length_append] at hlen
  have h1 : ("_" : String).length = 1 := rfl
  omega

theorem alookup_eq_of_mem_nodupkeys {α β : Type} [DecidableEq α]
    (l : List (α × β)) (k : α) (v : β) (hmem : (k, v) ∈ l)
    (hnd : (l.map Prod.fst).Nodup) : alookup l k = some v := by
  induction l with
  | nil => exact absurd hmem (List.not_mem_nil _)
  | cons hd tl ih =>
      obtain ⟨k', v'⟩ := hd
      rw [List.map_cons, List.nodup_cons] at hnd
      rcases List.mem_cons.mp hmem with h1 | h1
      · rw [Prod.ext_iff] at h1
        obtain ⟨hk, hv⟩ := h1
        simp only at hk hv
        subst hk; subst hv
        simp [alookup]
      · have hk : k' ≠ k := by
          intro he
          subst he
          exact hnd.1 (List.mem_map.mpr ⟨(k', v), h1, rfl⟩)
        simp only [alookup, if_neg hk]
        exact ih h1 hnd.2

theorem mem_nodupkeys_unique {α β : Type} [DecidableEq α]
    (l : List (α × β)) (k : α) (a b : β) (ha : (k, a) ∈ l) (hb : (k, b) ∈ l)
    (hnd : (l.map Prod.fst).Nodup) : a = b := by
  have h1 := alookup_eq_of_mem_nodupkeys l k a ha hnd
  have h2 := alookup_eq_of_mem_nodupkeys l k b hb hnd
  rw [h1] at h2
  injection h2

theorem descr_check_iff (fields : List (String × FieldValue)) :
    ((match alookup fields "description" with
      | some (.data (.str _)) => true
      | _ => false) = true) ↔
    ∃ s, alookup fields "description" = some (FieldValue.data (JSData.str s)) := by
  cases halk : alookup fields "description" with
  | none => simp
  | some fv =>
      cases fv with
      | data d => cases d <;> simp
      | func f => simp

theorem exec_check_iff (fields : List (String × FieldValue)) :
    ((match alookup fields "execute" with
      | some (.func _) => true
      | _ => false) = true) ↔
    ∃ f, alookup fields "execute" = some (FieldValue.func f) := by
  cases halk : alookup fields "execute" with
  | none => simp
  | some fv =>
      cases fv with
      | data d => simp
      | func f => simp

theorem accepted_name_iff (base : String) (m : JSModule)
    (hnd : (m.map Prod.fst).Nodup) (k : String) (v : ExportValue)
    (hkv : (k, v) ∈ m) :
    ((if k = "default" then base else base ++ "_" ++ k) ∈
        acceptedExportNames base m) ↔ isToolDefinition v = true := by
  by_cases hk : k = "default"
  · subst hk
    rw [if_pos rfl]
    have hdef : alookup m "default" = some v :=
      alookup_eq_of_mem_nodupkeys m "default" v hkv hnd
    constructor
    · intro hmem
      rcases List.mem_append.mp hmem with h1 | h1
      · rw [hdef] at h1
        dsimp only at h1
        by_cases htool : isToolDefinition v = true
        · exact htool
        · rw [if_neg htool] at h1
          exact absurd h1 (List.not_mem_nil _)
      · obtain ⟨kv, -, heq⟩ := List.mem_map.mp h1
        exact absurd heq.symm (base_ne_named base kv.1)
    · intro htool
      rw [acceptedExportNames, hdef]
      dsimp only
      rw [if_pos htool]
      exact List.mem_append_left _ (List.mem_singleton.mpr rfl)
  · rw [if_neg hk]
    constructor
    · intro hmem
      rcases List.mem_append.mp hmem with h1 | h1
      · exfalso
        rcases halk : alookup m "default" with - | v'
        · rw [halk] at h1
          exact absurd h1 (List.not_mem_nil _)
        · rw [halk] at h1
          dsimp only at h1
          by_cases htool : isToolDefinition v' = true
          · rw [if_pos htool] at h1
            exact base_ne_named base k (List.mem_singleton.mp h1).symm
          · rw [if_neg htool] at h1
            exact absurd h1 (List.not_mem_nil _)
      · obtain ⟨kv, hin, heq⟩ := List.mem_map.mp h1
        have hkeq : kv.1 = k :=
          string_append_cancel_left _ _ _ heq
        obtain ⟨hinm, hpred⟩ := List.mem_filter.mp hin
        have hveq : kv.2 = v := by
          apply mem_nodupkeys_unique m k kv.2 v _ hkv hnd
          have : kv = (k, kv.2) := by
            rw [Prod.ext_iff]
            exact ⟨hkeq, rfl⟩
          rw [← this]
          exact hinm
        rw [Bool.and_eq_true] at hpred
        rw [← hveq]
        exact hpred.2
    · intro htool
      refine List.mem_append_right _ ?_
      refine List.mem_map.mpr ⟨(k, v), List.mem_filter.mpr ⟨hkv, ?_⟩, rfl⟩
      simp [htool, bne_iff_ne, hk]

/-- C6: a value exported from a tool file is accepted and registered as a
capability if and only if it is a non-null object with a string
`description` property and a callable `execute` property; any other
exported value contributes no registry entry (it is silently skipped). -/
theorem export_accepted_iff_shape (v : ExportValue) :
    (isToolDefinition v = true ↔
      ∃ fields, v = ExportValue.obj fields ∧
        (∃ s, alookup fields "description" = some (FieldValue.data (JSData.str s))) ∧
        (∃ f, alookup fields "execute" = some (FieldValue.func f))) ∧
    (∀ (fs : FS) (hot : Bool) (dir : String) (st : SysState) (file : String)
        (m : JSModule) (k : String),
      isToolSourceFile file = true →
      alookup st.cache (mkImportReq hot (joinPath dir file) st.now) = none →
      fs file = LoadOutcome.success m →
      (m.map Prod.fst).Nodup →
      (k, v) ∈ m →
      ((if k = "default" then stripExt file else stripExt file ++ "_" ++ k) ∈
          ownedNames (loadToolFile fs hot dir st file) (stripExt file) ↔
        isToolDefinition v = true)) := by
  constructor
  · cases v with
    | prim d => simp [isToolDefinition]
    | efunc f => simp [isToolDefinition]
    | obj fields =>
        rw [isToolDefinition, Bool.and_eq_true, descr_check_iff, exec_check_iff]
        constructor
        · rintro ⟨h1, h2⟩
          exact ⟨fields, rfl, h1, h2⟩
        · rintro ⟨fields', heq, h1, h2⟩
          injection heq with heq
          subst heq
          exact ⟨h1, h2⟩
  · intro fs hot dir st file m k hext hmiss hm hnd hkv
    rw [mem_owned_loadToolFile fs hot dir st file hext hmiss, hm]
    exact accepted_name_iff (stripExt file) m hnd k v hkv

/-- A file whose default export lacks `description`: silently skipped. -/
def noDescFs : FS := fun file =>
  if file = "skip.ts" then
    .success [("default",
      ExportValue.obj [("execute", .func (fun _ _ => Except.ok JSData.null))])]
  else .notFound

/-- C6 witness: the description-less default export of `skip.ts` is
rejected by the structural guard and contributes no registry entry, while
a well-formed tool value is accepted. -/
theorem export_accepted_iff_shape_witness :
    ¬ ((if "default" = "default" then stripExt "skip.ts"
        else stripExt "skip.ts" ++ "_" ++ "default") ∈
      ownedNames (loadToolFile noDescFs true "tools" initState "skip.ts")
        (stripExt "skip.ts")) ∧
    isToolDefinition (demoTool "ok") = true := by
  constructor
  · intro hmem
    have h := (export_accepted_iff_shape
        (ExportValue.obj [("execute", .func (fun _ _ => Except.ok JSData.null))])).2
      noDescFs true "tools" initState "skip.ts"
      [("default", ExportValue.obj [("execute", .func (fun _ _ => Except.ok JSData.null))])]
      "default" (by decide) rfl rfl (by decide) (List.mem_singleton.mpr rfl)
    exact absurd (h.mp hmem) (by decide)
  · decide

/-! ## Decimal rendering is injective (cache-buster tokens never collide) -/

/-- Inverse of `Nat.digitChar` on decimal digits. -/
def digitVal (c : Char) : Nat :=
  if c = '0' then 0 else if c = '1' then 1 else if c = '2' then 2
  else if c = '3' then 3 else if c = '4' then 4 else if c = '5' then 5
  else if c = '6' then 6 else if c = '7' then 7 else if c = '8' then 8
  else if c = '9' then 9 else 0

/-- Reads a decimal digit string back into the number it denotes. -/
def decodeDigits (l : List Char) : Nat :=
  l.foldl (fun acc c => acc * 10 + digitVal c) 0

theorem digitVal_digitChar (n : Nat) : digitVal (Nat.digitChar (n % 10)) = n % 10 := by
  have h : n % 10 < 10 := Nat.mod_lt _ (by decide)
  set k := n % 10 with hk
  interval_cases k <;> decide

theorem foldl_digits_shift (l : List Char) :
    ∀ acc : Nat,
      l.foldl (fun a c => a * 10 + digitVal c) acc =
        acc * 10 ^ l.length + decodeDigits l := by
  induction l with
  | nil => intro acc; simp [decodeDigits]
  | cons c l ih =>
      intro acc
      rw [List.foldl_cons, ih]
      have hd : decodeDigits (c :: l) = digitVal c * 10 ^ l.length + decodeDigits l := by
        rw [decodeDigits, List.foldl_cons, ih]
        simp
      rw [hd, List.length_cons, pow_succ]
      ring

theorem decodeDigits_toDigitsCore :
    ∀ (fuel n : Nat) (ds : List Char), n < fuel →
      decodeDigits (Nat.toDigitsCore 10 fuel n ds) =
        n * 10 ^ ds.length + decodeDigits ds := by
  intro fuel
  induction fuel with
  | zero => intro n ds h; omega
  | succ fuel ih =>
      intro n ds h
      rw [Nat.toDigitsCore]
      by_cases hdiv : n / 10 = 0
      · simp only [hdiv, if_true]
        have hlt : n < 10 := by omega
        have hmod : n % 10 = n := Nat.mod_eq_of_lt hlt
        rw [decodeDigits, List.foldl_cons, foldl_digits_shift]
        rw [show (0 : Nat) * 10 + digitVal (Nat.digitChar (n % 10)) =
          digitVal (Nat.digitChar (n % 10)) from by omega]
        rw [digitVal_digitChar, hmod]
      · simp only [hdiv, if_false]
        have hn0 : 0 < n := by
          rcases Nat.eq_zero_or_pos n with h0 | h0
          · subst h0; simp at hdiv
          · exact h0
        have hlt : n / 10 < fuel :=
          Nat.lt_of_lt_of_le (Nat.div_lt_self hn0 (by decide)) (Nat.lt_succ_iff.mp h)
        rw [ih (n / 10) (Nat.digitChar (n % 10) :: ds) hlt]
        have hd : decodeDigits (Nat.digitChar (n % 10) :: ds) =
            (n % 10) * 10 ^ ds.length + decodeDigits ds := by
          rw [decodeDigits, List.foldl_cons, foldl_digits_shift]
          rw [show (0 : Nat) * 10 + digitVal (Nat.digitChar (n % 10)) =
            digitVal (Nat.digitChar (n % 10)) from by omega]
          rw [digitVal_digitChar]
        rw [hd, List.length_cons, pow_succ]
        have hdm := Nat.div_add_mod n 10
        have key : n / 10 * (10 ^ ds.length * 10) + (n % 10 * 10 ^ ds.length + decodeDigits ds)
            = (10 * (n / 10) + n % 10) * 10 ^ ds.length + decodeDigits ds := by ring
        rw [key, hdm]

theorem decodeDigits_toDigits (n : Nat) : decodeDigits (Nat.toDigits 10 n) = n := by
  rw [Nat.toDigits, decodeDigits_toDigitsCore (n + 1) n [] (Nat.lt_succ_self n)]
  simp [decodeDigits]

theorem natRepr_injective (n1 n2 : Nat) (h : Nat.repr n1 = Nat.repr n2) : n1 = n2 := by
  rw [Nat.repr, Nat.repr] at h
  have hdata := congrArg String.data h
  have hd : (Nat.toDigits 10 n1) = (Nat.toDigits 10 n2) := hdata
  have := congrArg decodeDigits hd
  rwa [decodeDigits_toDigits, decodeDigits_toDigits] at this

/-- C7: with hot reload active, every two load requests for the same file
made at distinct clock readings use distinct import URLs (the appended
`?t=` token makes them unique), they are distinct cache keys, and the URL
is exactly the file URL with the token appended.  In the model the clock
strictly increases across imports, so any two imports of one file observe
distinct readings. -/
theorem cache_buster_urls_distinct (path : String) (t1 t2 : Nat) (h : t1 ≠ t2) :
    importUrl true path t1 ≠ importUrl true path t2 ∧
    mkImportReq true path t1 ≠ mkImportReq true path t2 ∧
    importUrl true path t1 = fileUrlOf path ++ "?t=" ++ toString t1 := by
  refine ⟨?_, ?_, rfl⟩
  · intro heq
    simp only [importUrl, mkImportReq, if_true, renderImportReq] at heq
    exact h (natRepr_injective t1 t2 (string_append_cancel_left _ _ _ heq))
  · intro heq
    rw [mkImportReq, mkImportReq, if_pos rfl, if_pos rfl, ImportReq.mk.injEq] at heq
    exact h (Option.some.injEq _ _ ▸ heq.2)

/-- C7 witness: two consecutive clock readings give distinct URLs for the
same file. -/
theorem cache_buster_urls_distinct_witness :
    importUrl true (joinPath "tools" "math.ts") 0 ≠
      importUrl true (joinPath "tools" "math.ts") 1 ∧
    mkImportReq true (joinPath "tools" "math.ts") 0 ≠
      mkImportReq true (joinPath "tools" "math.ts") 1 ∧
    importUrl true (joinPath "tools" "math.ts") 0 =
      fileUrlOf (joinPath "tools" "math.ts") ++ "?t=" ++ toString 0 :=
  cache_buster_urls_distinct (joinPath "tools" "math.ts") 0 1 (by decide)

/-! ## The hot-reload flag does not affect the registry -/

/-- Equality of the observable components of the state: the ownership map,
the server tool table, and the diagnostic log (the module cache and clock
are host-runtime artifacts). -/
def coreEq (a b : SysState) : Prop :=
  a.registeredTools = b.registeredTools ∧ a.serverTools = b.serverTools ∧ a.log = b.log

theorem coreEq_refl (a : SysState) : coreEq a a := ⟨rfl, rfl, rfl⟩

theorem coreEq_unregister (a b : SysState) (file : String) (h : coreEq a b) :
    coreEq (unregisterFileTools a file) (unregisterFileTools b file) := by
  obtain ⟨h1, h2, h3⟩ := h
  rw [unregisterFileTools, unregisterFileTools, h1]
  cases halk : alookup b.registeredTools (stripExt file) with
  | none => exact ⟨h1, h2, h3⟩
  | some names => exact ⟨rfl, by rw [h2], by rw [h3]⟩

theorem coreEq_registerTool (n : String) (tool : List (String × FieldValue))
    (base : String) (a b : SysState) (h : coreEq a b) :
    coreEq (registerTool n tool base a) (registerTool n tool base b) := by
  obtain ⟨h1, h2, h3⟩ := h
  exact ⟨by rw [registerTool, registerTool, ownedNames, ownedNames, h1],
    by rw [registerTool, registerTool, h2],
    by rw [registerTool, registerTool, h3]⟩

theorem coreEq_registerModuleExports (base : String) (m : JSModule) :
    ∀ a b : SysState, coreEq a b →
      coreEq (registerModuleExports base m a) (registerModuleExports base m b) := by
  have hfold : ∀ (l : JSModule) (a b : SysState), coreEq a b →
      coreEq
        (l.foldl
          (fun s kv =>
            if kv.1 != "default" && isToolDefinition kv.2 then
              registerTool (base ++ "_" ++ kv.1) (exportFields kv.2) base s
            else s)
          a)
        (l.foldl
          (fun s kv =>
            if kv.1 != "default" && isToolDefinition kv.2 then
              registerTool (base ++ "_" ++ kv.1) (exportFields kv.2) base s
            else s)
          b) := by
    intro l
    induction l with
    | nil => intro a b h; exact h
    | cons kv rest ih =>
        intro a b h
        rw [List.foldl_cons, List.foldl_cons]
        by_cases hacc : (kv.1 != "default" && isToolDefinition kv.2) = true
        · rw [if_pos hacc, if_pos hacc]
          exact ih _ _ (coreEq_registerTool _ _ _ _ _ h)
        · rw [if_neg hacc, if_neg hacc]
          exact ih _ _ h
  intro a b h
  rw [registerModuleExports, registerModuleExports]
  cases hdef : alookup m "default" with
  | none => exact hfold m a b h
  | some v =>
      by_cases htool : isToolDefinition v = true
      · simp only [htool, if_true]
        exact hfold m _ _ (coreEq_registerTool _ _ _ _ _ h)
      · simp only [htool, if_false, Bool.false_eq_true]
        exact hfold m a b h

theorem joinPath_injective (dir f1 f2 : String) (h : joinPath dir f1 = joinPath dir f2) :
    f1 = f2 := by
  rw [joinPath, joinPath] at h
  exact string_append_cancel_left (dir ++ "/") f1 f2 (by
    rw [String.append_assoc, String.append_assoc] at h ⊢
    exact h)

theorem cacheFresh_unregister (a : SysState) (file : String) (h : cacheFresh a) :
    cacheFresh (unregisterFileTools a file) := by
  intro req m t hmem htok
  rw [now_unregisterFileTools]
  rw [cache_unregisterFileTools] at hmem
  exact h req m t hmem htok

theorem cacheCoherent_unregister (fs : FS) (dir : String) (b : SysState) (file : String)
    (h : cacheCoherent fs dir b) : cacheCoherent fs dir (unregisterFileTools b file) := by
  intro f m halk
  rw [cache_unregisterFileTools] at halk
  exact h f m halk

theorem cacheCoherent_loadToolFile (fs : FS) (dir : String) (b : SysState) (file : String)
    (h : cacheCoherent fs dir b) :
    cacheCoherent fs dir (loadToolFile fs false dir b file) := by
  unfold loadToolFile
  by_cases hext : isToolSourceFile file = true
  · simp only [hext, Bool.not_true, Bool.false_eq_true, if_false]
    have hcache : (unregisterFileTools b file).cache = b.cache :=
      cache_unregisterFileTools b file
    cases hfs : fs file with
    | notFound =>
        intro f m halk
        rw [show (SysState.cache _) = b.cache from hcache] at halk
        exact h f m halk
    | loadFailure msg =>
        simp only [resolveImport, hcache, mkImportReq, Bool.false_eq_true, if_false]
        cases halk : alookup b.cache (ImportReq.mk (joinPath dir file) none) with
        | some m2 =>
            simp only [halk]
            intro f m halk2
            rw [cache_registerModuleExports] at halk2
            exact h f m halk2
        | none =>
            simp only [halk]
            intro f m halk2
            exact h f m halk2
    | success m0 =>
        simp only [resolveImport, hcache, mkImportReq, Bool.false_eq_true, if_false]
        cases halk : alookup b.cache (ImportReq.mk (joinPath dir file) none) with
        | some m2 =>
            simp only [halk]
            intro f m halk2
            rw [cache_registerModuleExports] at halk2
            exact h f m halk2
        | none =>
            simp only [halk]
            intro f m halk2
            rw [cache_registerModuleExports] at halk2
            by_cases hpath : joinPath dir f = joinPath dir file
            · have hf : f = file := joinPath_injective dir f file hpath
              subst hf
              rw [hpath, alookup_aset_self] at halk2
              injection halk2 with halk2
              rw [hfs, halk2]
            · rw [alookup_aset_ne _ _ _ _ (by
                intro he
                exact hpath (congrArg ImportReq.path he).symm)] at halk2
              exact h f m halk2
  · simp only [hext]
    simp only [Bool.not_eq_true] at hext
    simp [hext]
    exact h

theorem loadToolFile_hot_step (fs : FS) (dir file : String) (a b : SysState)
    (hc : coreEq a b) (hn : a.now = b.now) (hfa : cacheFresh a)
    (hcb : cacheCoherent fs dir b) :
    coreEq (loadToolFile fs true dir a file) (loadToolFile fs false dir b file) ∧
    (loadToolFile fs true dir a file).now = (loadToolFile fs false dir b file).now := by
  unfold loadToolFile
  by_cases hext : isToolSourceFile file = true
  · simp only [hext, Bool.not_true, Bool.false_eq_true, if_false]
    have hc1 := coreEq_unregister a b file hc
    have hna := now_unregisterFileTools a file
    have hnb := now_unregisterFileTools b file
    have hfa1 : cacheFresh (unregisterFileTools a file) := cacheFresh_unregister a file hfa
    have hcb1 : cacheCoherent fs dir (unregisterFileTools b file) :=
      cacheCoherent_unregister fs dir b file hcb
    have hn1 : (unregisterFileTools a file).now = (unregisterFileTools b file).now := by
      rw [hna, hnb, hn]
    cases hfs : fs file with
    | notFound =>
        exact ⟨⟨hc1.1, hc1.2.1, by rw [hc1.2.2]⟩, hn1⟩
    | loadFailure msg =>
        have hmissa := miss_of_cacheFresh (unregisterFileTools a file) (joinPath dir file) hfa1
        simp only [resolveImport, hmissa]
        cases halkb : alookup (unregisterFileTools b file).cache
            (mkImportReq false (joinPath dir file) (unregisterFileTools b file).now) with
        | some m2 =>
            exfalso
            have hcoh := hcb1 file m2 halkb
            rw [hfs] at hcoh
            exact LoadOutcome.noConfusion hcoh
        | none =>
            simp only [halkb]
            exact ⟨⟨hc1.1, hc1.2.1, by rw [hc1.2.2]⟩, by
              show (unregisterFileTools a file).now + 1 =
                (unregisterFileTools b file).now + 1
              rw [hn1]⟩
    | success m =>
        have hmissa := miss_of_cacheFresh (unregisterFileTools a file) (joinPath dir file) hfa1
        simp only [resolveImport, hmissa]
        cases halkb : alookup (unregisterFileTools b file).cache
            (mkImportReq false (joinPath dir file) (unregisterFileTools b file).now) with
        | some m2 =>
            simp only [halkb]
            have hcoh := hcb1 file m2 halkb
            rw [hfs] at hcoh
            injection hcoh with hm2
            subst hm2
            constructor
            · exact coreEq_registerModuleExports _ _ _ _ ⟨hc1.1, hc1.2.1, hc1.2.2⟩
            · rw [now_registerModuleExports, now_registerModuleExports]
              show (unregisterFileTools a file).now + 1 =
                (unregisterFileTools b file).now + 1
              rw [hn1]
        | none =>
            simp only [halkb]
            constructor
            · exact coreEq_registerModuleExports _ _ _ _ ⟨hc1.1, hc1.2.1, hc1.2.2⟩
            · rw [now_registerModuleExports, now_registerModuleExports]
              show (unregisterFileTools a file).now + 1 =
                (unregisterFileTools b file).now + 1
              rw [hn1]
  · simp only [Bool.not_eq_true] at hext
    simp only [hext, Bool.not_false, if_true]
    exact ⟨hc, hn⟩

theorem loadAllTools_hot_pair (fs : FS) (dir : String) (files : List String) :
    ∀ a b : SysState, coreEq a b → a.now = b.now → cacheFresh a →
      cacheCoherent fs dir b →
      coreEq (files.foldl (loadToolFile fs true dir) a)
        (files.foldl (loadToolFile fs false dir) b) ∧
      (files.foldl (loadToolFile fs true dir) a).now =
        (files.foldl (loadToolFile fs false dir) b).now := by
  induction files with
  | nil => intro a b hc hn _ _; exact ⟨hc, hn⟩
  | cons f rest ih =>
      intro a b hc hn hfa hcb
      rw [List.foldl_cons, List.foldl_cons]
      obtain ⟨hc', hn'⟩ := loadToolFile_hot_step fs dir f a b hc hn hfa hcb
      exact ih _ _ hc' hn' (cacheFresh_loadToolFile fs true dir a f hfa)
        (cacheCoherent_loadToolFile fs dir b f hcb)

/-- C8: with the hot-reload flag disabled only the watcher is affected —
the initial scan (`loadAllTools`) from a process-start state produces
exactly the same ownership map, the same server tool table (including
every adapter handler) and the same diagnostic log as the hot-reload
configuration. -/
theorem hot_flag_does_not_change_initial_scan (fs : FS) (dir : String)
    (files : List String) (st : SysState) (hcache : st.cache = []) :
    (loadAllTools fs true dir files st).registeredTools =
      (loadAllTools fs false dir files st).registeredTools ∧
    (loadAllTools fs true dir files st).serverTools =
      (loadAllTools fs false dir files st).serverTools ∧
    (loadAllTools fs true dir files st).log =
      (loadAllTools fs false dir files st).log := by
  have hfresh : cacheFresh st := by
    intro req m t hmem _
    rw [hcache] at hmem
    exact absurd hmem (List.not_mem_nil _)
  have hcoh : cacheCoherent fs dir st := by
    intro f m halk
    rw [hcache] at halk
    exact absurd halk (by simp [alookup])
  exact (loadAllTools_hot_pair fs dir files st st (coreEq_refl st) rfl hfresh hcoh).1

/-- C8 witness: scanning a directory containing `math.ts` with hot reload
on and off yields identical registry, server table and log. -/
theorem hot_flag_does_not_change_initial_scan_witness :
    (loadAllTools demoFsOld true "tools" ["math.ts", "notes.txt"] initState).registeredTools =
      (loadAllTools demoFsOld false "tools" ["math.ts", "notes.txt"] initState).registeredTools ∧
    (loadAllTools demoFsOld true "tools" ["math.ts", "notes.txt"] initState).serverTools =
      (loadAllTools demoFsOld false "tools" ["math.ts", "notes.txt"] initState).serverTools ∧
    (loadAllTools demoFsOld true "tools" ["math.ts", "notes.txt"] initState).log =
      (loadAllTools demoFsOld false "tools" ["math.ts", "notes.txt"] initState).log :=
  hot_flag_does_not_change_initial_scan demoFsOld "tools" ["math.ts", "notes.txt"]
    initState rfl

/-! ## Unregistration is keyed by name alone -/

/-- Two files that derive the same capability name `x_y_z`. -/
def collideFs : FS := fun file =>
  if file = "x.ts" then .success [("y_z", demoTool "one")]
  else if file = "x_y.ts" then .success [("z", demoTool "two")]
  else .notFound

/-- The state after loading `x.ts` and then `x_y.ts`: both files own the
name `x_y_z`; the live server entry is the one `x_y.ts` registered last. -/
def collideSt : SysState :=
  loadToolFile collideFs true "tools"
    (loadToolFile collideFs true "tools" initState "x.ts") "x_y.ts"

/-- C9: `unregisterFileTools` removes from the server table exactly the
entries whose names are recorded as owned by the file — keyed by name
alone, regardless of which file registered the live handler — and leaves
every other name untouched.  Consequently, in the concrete state where
`x.ts` and `x_y.ts` both derived `x_y_z` and `x_y.ts` registered last,
unregistering `x.ts` deletes the live handler that `x_y.ts` installed,
while `x_y.ts` still records the name as owned. -/
theorem unregister_deletes_by_name_alone :
    (∀ (st : SysState) (file : String) (n : String),
      alookup (unregisterFileTools st file).serverTools n =
        if n ∈ ownedNames st (stripExt file) then none
        else alookup st.serverTools n) ∧
    (ownedNames collideSt "x" = ["x_y_z"] ∧
      ownedNames collideSt "x_y" = ["x_y_z"] ∧
      (alookup collideSt.serverTools "x_y_z").map RegisteredEntry.description =
        some ("tool " ++ "two") ∧
      alookup (unregisterFileTools collideSt "x.ts").serverTools "x_y_z" = none ∧
      ownedNames (unregisterFileTools collideSt "x.ts") "x_y" = ["x_y_z"]) := by
  refine ⟨serverTools_unregisterFileTools, ?_, ?_, ?_, ?_, ?_⟩
  · decide
  · decide
  · rfl
  · rfl
  · decide

/-! ## Empty args behave as absent args -/

/-- C10: a tool whose `args` field is present but has no keys registers
exactly as if `args` were absent: the same state results as for the tool
with the field removed, no schema is passed to the sink, and the handler
invokes `execute` with the empty object on every call. -/
theorem empty_args_behaves_as_absent (name base : String) (st : SysState)
    (tool : List (String × FieldValue)) (h : toolArgs tool = some []) :
    registerTool name tool base st = registerTool name (adel tool "args") base st ∧
    computedSchema tool = none ∧
    (∀ args extra, handlerRun (mkHandler tool (computedSchema tool)) args extra =
      (toolExecute tool (JSData.obj []) extra).map mkToolResponse) := by
  have hschema : computedSchema tool = none := by
    rw [computedSchema, h]
    simp
  have hdesc : toolDescription (adel tool "args") = toolDescription tool := by
    rw [toolDescription, toolDescription, alookup_adel_ne _ _ _ (by decide)]
  have hexec : toolExecute (adel tool "args") = toolExecute tool := by
    rw [toolExecute, toolExecute, alookup_adel_ne _ _ _ (by decide)]
  have hargs : toolArgs (adel tool "args") = none := by
    rw [toolArgs, alookup_adel_self]
  have hschema' : computedSchema (adel tool "args") = none := by
    rw [computedSchema, hargs]
  have hentry : mkRegisteredEntry (adel tool "args") = mkRegisteredEntry tool := by
    rw [mkRegisteredEntry, mkRegisteredEntry, hdesc, hschema, hschema']
    simp only [mkHandler, hexec]
  refine ⟨?_, hschema, ?_⟩
  · rw [registerTool, registerTool, hentry]
  · intro args extra
    rw [hschema]
    rfl

/-- A tool definition whose `args` field is present but empty. -/
def emptyArgsTool : List (String × FieldValue) :=
  [("description", .data (.str "no args")),
   ("args", .data (.obj [])),
   ("execute", .func (fun _ _ => Except.ok (JSData.str "ok")))]

/-- C10 witness: the empty-args tool instantiated concretely. -/
theorem empty_args_behaves_as_absent_witness :
    registerTool "t" emptyArgsTool "t" initState =
      registerTool "t" (adel emptyArgsTool "args") "t" initState ∧
    computedSchema emptyArgsTool = none ∧
    handlerRun (mkHandler emptyArgsTool (computedSchema emptyArgsTool))
        (JSData.num 5) JSData.null =
      (toolExecute emptyArgsTool (JSData.obj []) JSData.null).map mkToolResponse := by
  have h := empty_args_behaves_as_absent "t" "t" initState emptyArgsTool rfl
  exact ⟨h.1, h.2.1, h.2.2 (JSData.num 5) JSData.null⟩
